import Mathlib

/-!
Shallow embedding of `src/src/lib.rs` (orthogonal-connector routing
scaffolding): the geometry kernel (`Point`, `Size`, `Rect` and its
methods, `direction_of`, `distance`, `min_max`) and the point graph
(`PointGraph` over a petgraph-style node/edge arena).

Conventions of the embedding:
* Rust `i32` coordinates are modelled as `Int`; where the source's
  wrapping arithmetic matters (the squared terms inside `distance`),
  the wrap-around is made explicit with `i32_wrap`.
* `f64` results of `sqrt` are modelled as real numbers via `Real.sqrt`.
* A Rust `panic!` (from `Option::unwrap` or slice indexing) is
  modelled by returning `none` from an `Option`-valued function.
* `petgraph::Graph<Point, f64>` is a directed graph; it is modelled as
  a node arena (`List Point`, `NodeIndex` = position) plus an edge
  list in insertion order.  `HashMap<Point, NodeIndex>` is modelled as
  an association list with most-recent-insertion first.
-/

namespace OrthoRs

/-- `Point` from the source: integer x/y coordinates. -/
structure Point where
  x : Int
  y : Int
deriving DecidableEq, Repr

/-- `Size` from the source: integer width/height. -/
structure Size where
  width : Int
  height : Int
deriving DecidableEq, Repr

/-- `Direction` enum from the source. -/
inductive Direction where
  | Vertical
  | Horizontal
  | Other
deriving DecidableEq, Repr

/-- `make_point` from the source. -/
def make_point (x y : Int) : Point := ⟨x, y⟩

/-- `make_size` from the source. -/
def make_size (width height : Int) : Size := ⟨width, height⟩

/-- `direction_of` from the source (lines 20–28), exactly as written
there: same `x` yields `Horizontal`, else same `y` yields `Vertical`,
else `Other`. -/
def direction_of (a b : Point) : Direction :=
  if a.x = b.x then Direction.Horizontal
  else if a.y = b.y then Direction.Vertical
  else Direction.Other

/-- Two's-complement wrap-around of an integer into the `i32` range
`[-2^31, 2^31)`: the value congruent mod `2^32`. -/
def i32_wrap (v : Int) : Int := (v + 2 ^ 31) % 2 ^ 32 - 2 ^ 31

/-- The integer computed inside `distance` by
`(a.x - b.x).pow(2) + (a.y - b.y).pow(2)` with every `i32` operation
wrapping mod `2^32`. -/
def dist_sq_i32 (a b : Point) : Int :=
  i32_wrap (i32_wrap (i32_wrap (a.x - b.x) ^ 2) + i32_wrap (i32_wrap (a.y - b.y) ^ 2))

/-- `distance` from the source (lines 98–100): the square root (in real
arithmetic, modelling the `f64` computation) of the wrapped integer
sum of squares. -/
noncomputable def distance (a b : Point) : ℝ :=
  Real.sqrt ((dist_sq_i32 a b : Int) : ℝ)

/-- `.iter().min()` on a slice: `none` on the empty slice. -/
def list_min : List Int → Option Int
  | [] => none
  | a :: rest =>
    match list_min rest with
    | none => some a
    | some m => some (min a m)

/-- `.iter().max()` on a slice: `none` on the empty slice. -/
def list_max : List Int → Option Int
  | [] => none
  | a :: rest =>
    match list_max rest with
    | none => some a
    | some m => some (max a m)

/-- `min_max` from the source (lines 102–104).  The two `unwrap`s are
modelled by the `Option`: `none` is the panic on an empty slice. -/
def min_max (x : List Int) : Option (Int × Int) :=
  match list_min x, list_max x with
  | some mn, some mx => some (mn, mx)
  | _, _ => none

/-- `Rect` from the source: an origin point and a size. -/
structure Rect where
  origin : Point
  size : Size
deriving DecidableEq, Repr

namespace Rect

/-- `Rect::from_ltrb` from the source. -/
def from_ltrb (l t r b : Int) : Rect :=
  ⟨make_point l t, make_size (r - l) (b - t)⟩

/-- `Rect::left`. -/
def left (r : Rect) : Int := r.origin.x

/-- `Rect::right`. -/
def right (r : Rect) : Int := r.origin.x + r.size.width

/-- `Rect::top`. -/
def top (r : Rect) : Int := r.origin.y

/-- `Rect::bottom`. -/
def bottom (r : Rect) : Int := r.origin.y + r.size.height

/-- `Rect::width`. -/
def width (r : Rect) : Int := r.size.width

/-- `Rect::height`. -/
def height (r : Rect) : Int := r.size.height

/-- `Rect::center`; Rust `i32` division truncates toward zero, which is
`Int.tdiv`. -/
def center (r : Rect) : Point :=
  make_point (r.left + Int.tdiv r.width 2) (r.top + Int.tdiv r.height 2)

/-- `Rect::north_east`. -/
def north_east (r : Rect) : Point := make_point r.right r.top

/-- `Rect::south_east`. -/
def south_east (r : Rect) : Point := make_point r.right r.bottom

/-- `Rect::south_west`. -/
def south_west (r : Rect) : Point := make_point r.left r.bottom

/-- `Rect::north_west`. -/
def north_west (r : Rect) : Point := make_point r.left r.top

/-- `Rect::east` exactly as the source writes it (lines 167–169): note
that it uses `left`, not `right`. -/
def east (r : Rect) : Point := make_point r.left (r.center).y

/-- `Rect::north`. -/
def north (r : Rect) : Point := make_point (r.center).x r.top

/-- `Rect::south`. -/
def south (r : Rect) : Point := make_point (r.center).x r.bottom

/-- `Rect::west`. -/
def west (r : Rect) : Point := make_point r.left (r.center).y

/-- `Rect::contains` from the source (lines 183–185). -/
def contains (r : Rect) (p : Point) : Prop :=
  r.left ≤ p.x ∧ p.x ≤ r.right ∧ r.top ≤ p.y ∧ p.y ≤ r.bottom

instance (r : Rect) (p : Point) : Decidable (contains r p) :=
  inferInstanceAs (Decidable (_ ≤ _ ∧ _ ≤ _ ∧ _ ≤ _ ∧ _ ≤ _))

/-- `Rect::inflate` from the source (lines 187–194). -/
def inflate (r : Rect) (horizontal vertical : Int) : Rect :=
  from_ltrb (r.left - horizontal) (r.top - vertical)
    (r.right + horizontal) (r.bottom + vertical)

/-- `Rect::intersects` from the source (lines 196–209): four strict
inequalities on the edge coordinates. -/
def intersects (r other : Rect) : Prop :=
  other.left < r.left + r.width ∧ r.left < other.left + other.width ∧
  other.top < r.top + r.height ∧ r.top < other.top + other.height

instance (r other : Rect) : Decidable (intersects r other) :=
  inferInstanceAs (Decidable (_ < _ ∧ _ < _ ∧ _ < _ ∧ _ < _))

/-- `Rect::union` from the source (lines 211–217); the `Option` carries
`min_max`'s potential panic. -/
def union (r s : Rect) : Option Rect :=
  let x := [r.left, r.right, s.left, s.right]
  let y := [r.top, r.bottom, s.top, s.bottom]
  match min_max x, min_max y with
  | some (min_x, max_x), some (min_y, max_y) =>
    some (from_ltrb min_x min_y max_x max_y)
  | _, _ => none

end Rect

/-- Spec-side notion for §4.1: the open interiors of the two rectangles
overlap on both axes, taking the intervals as open real intervals. -/
def interiorOverlap (r s : Rect) : Prop :=
  ((Set.Ioo (r.left : ℝ) (r.right : ℝ)) ∩ (Set.Ioo (s.left : ℝ) (s.right : ℝ))).Nonempty ∧
  ((Set.Ioo (r.top : ℝ) (r.bottom : ℝ)) ∩ (Set.Ioo (s.top : ℝ) (s.bottom : ℝ))).Nonempty

/-- Spec-side notion for §4.1's `union` contract: `outer` contains
`inner` as a rectangle (edge-wise containment). -/
def encloses (outer inner : Rect) : Prop :=
  outer.left ≤ inner.left ∧ inner.right ≤ outer.right ∧
  outer.top ≤ inner.top ∧ inner.bottom ≤ outer.bottom

/-- A `petgraph::Graph<Point, f64>` (directed): a node arena indexed by
position (`NodeIndex` = `Nat`) and an edge list in insertion order,
each edge `(source, target, weight)`. -/
structure PetGraph where
  nodes : List Point
  edges : List (Nat × Nat × ℝ)

/-- `Graph::add_node`: appends the node and returns its fresh index. -/
def PetGraph.add_node (g : PetGraph) (p : Point) : Nat × PetGraph :=
  (g.nodes.length, { g with nodes := g.nodes ++ [p] })

/-- `Graph::add_edge`: appends one directed edge. -/
def PetGraph.add_edge (g : PetGraph) (a b : Nat) (w : ℝ) : PetGraph :=
  { g with edges := g.edges ++ [(a, b, w)] }

/-- `HashMap::get` on the association-list model of
`HashMap<Point, NodeIndex>`. -/
def lookup : List (Point × Nat) → Point → Option Nat
  | [], _ => none
  | (q, n) :: rest, p => if q = p then some n else lookup rest p

/-- `PointGraph` from the source (lines 227–230). -/
structure PointGraph where
  graph : PetGraph
  nodes : List (Point × Nat)

/-- The zero-valued `PointGraph` (both collections empty), the state a
fresh graph starts from. -/
def PointGraph.empty : PointGraph := ⟨⟨[], []⟩, []⟩

/-- `PointGraph::add` from the source (lines 233–241): return the
existing index when the point is present, otherwise insert a fresh
node.  `HashMap::insert` of an absent key is modelled by prepending. -/
def PointGraph.add (g : PointGraph) (pt : Point) : Nat × PointGraph :=
  match lookup g.nodes pt with
  | some ndx => (ndx, g)
  | none =>
    let (ndx, graph) := g.graph.add_node pt
    (ndx, { graph := graph, nodes := (pt, ndx) :: g.nodes })

/-- `PointGraph::get` from the source (lines 251–253). -/
def PointGraph.get (g : PointGraph) (p : Point) : Option Nat :=
  lookup g.nodes p

/-- `PointGraph::has` from the source (lines 248–250). -/
def PointGraph.has (g : PointGraph) (p : Point) : Bool :=
  (lookup g.nodes p).isSome

/-- `PointGraph::connect` from the source (lines 242–247).  The two
`unwrap`s are modelled by the `Option`: `none` is the panic when a
point was never added. -/
noncomputable def PointGraph.connect (g : PointGraph) (a b : Point) : Option PointGraph :=
  let weight := distance a b
  match g.get a, g.get b with
  | some na, some nb => some { g with graph := g.graph.add_edge na nb weight }
  | _, _ => none

/-- `PointGraph::direction_of` from the source (lines 254–256); the
slice indexing panics (`none`) on an out-of-range `NodeIndex`. -/
def PointGraph.direction_of (g : PointGraph) (a b : Nat) : Option Direction :=
  match g.graph.nodes[a]?, g.graph.nodes[b]? with
  | some pa, some pb => some (OrthoRs.direction_of pa pb)
  | _, _ => none

/-- Well-formedness of the node map that `PointGraph.add` maintains:
pairwise-distinct keys and pairwise-distinct node indices. -/
def wf_nodes (m : List (Point × Nat)) : Prop :=
  m.Pairwise (fun e1 e2 => e1.1 ≠ e2.1 ∧ e1.2 ≠ e2.2)

/-- Concrete two-node graph used as evaluation fixture: `(0,0)` at
index `0` and `(1,0)` at index `1`. -/
def cg0 : PointGraph :=
  (PointGraph.add (PointGraph.add PointGraph.empty ⟨0, 0⟩).2 ⟨1, 0⟩).2

theorem lookup_mem {p : Point} {n : Nat} :
    ∀ {m : List (Point × Nat)}, lookup m p = some n → (p, n) ∈ m := by
  intro m
  induction m with
  | nil => intro h; simp [lookup] at h
  | cons e rest ih =>
    intro h
    obtain ⟨q, k⟩ := e
    by_cases hq : q = p
    · subst hq
      rw [lookup, if_pos rfl] at h
      injection h with h
      subst h
      exact List.mem_cons_self _ _
    · rw [lookup, if_neg hq] at h
      exact List.mem_cons_of_mem _ (ih h)

theorem wf_lookup_inj {p q : Point} {np nq : Nat} (hpq : p ≠ q) :
    ∀ {m : List (Point × Nat)}, wf_nodes m →
      lookup m p = some np → lookup m q = some nq → np ≠ nq := by
  intro m
  induction m with
  | nil => intro _ hp; simp [lookup] at hp
  | cons e rest ih =>
    intro hwf hp hq
    obtain ⟨r, k⟩ := e
    rw [wf_nodes, List.pairwise_cons] at hwf
    by_cases hrp : r = p
    · subst hrp
      rw [lookup, if_pos rfl] at hp
      injection hp with hp
      rw [lookup, if_neg hpq] at hq
      intro hc
      exact (hwf.1 _ (lookup_mem hq)).2 (hp.trans hc)
    · rw [lookup, if_neg hrp] at hp
      by_cases hrq : r = q
      · subst hrq
        rw [lookup, if_pos rfl] at hq
        injection hq with hq
        intro hc
        exact (hwf.1 _ (lookup_mem hp)).2 (hq.trans hc.symm)
      · rw [lookup, if_neg hrq] at hq
        exact ih hwf.2 hp hq

theorem i32_wrap_id {v : Int} (h1 : -2 ^ 31 ≤ v) (h2 : v < 2 ^ 31) :
    i32_wrap v = v := by
  unfold i32_wrap
  omega

theorem i32_wrap_congr {v w : Int} (h : v % 2 ^ 32 = w % 2 ^ 32) :
    i32_wrap v = i32_wrap w := by
  unfold i32_wrap
  omega

theorem sq_lt_i32_bound {v : Int} (h : v ^ 2 < 2 ^ 31) :
    -2 ^ 31 ≤ v ∧ v < 2 ^ 31 := by
  constructor
  · nlinarith [sq_nonneg (v + 2 ^ 31)]
  · nlinarith [sq_nonneg (v - 2 ^ 31)]

theorem dist_sq_i32_exact {a b : Point}
    (h : (a.x - b.x) ^ 2 + (a.y - b.y) ^ 2 < 2 ^ 31) :
    dist_sq_i32 a b = (a.x - b.x) ^ 2 + (a.y - b.y) ^ 2 := by
  have hx2 : (a.x - b.x) ^ 2 < 2 ^ 31 := by nlinarith [sq_nonneg (a.y - b.y)]
  have hy2 : (a.y - b.y) ^ 2 < 2 ^ 31 := by nlinarith [sq_nonneg (a.x - b.x)]
  have hx := sq_lt_i32_bound hx2
  have hy := sq_lt_i32_bound hy2
  unfold dist_sq_i32
  rw [i32_wrap_id hx.1 hx.2, i32_wrap_id hy.1 hy.2,
    i32_wrap_id (le_trans (by norm_num) (sq_nonneg _)) hx2,
    i32_wrap_id (le_trans (by norm_num) (sq_nonneg _)) hy2,
    i32_wrap_id (by nlinarith [sq_nonneg (a.x - b.x), sq_nonneg (a.y - b.y)]) h]

theorem dist_sq_i32_comm (a b : Point) : dist_sq_i32 a b = dist_sq_i32 b a := by
  have key : ∀ v : Int, i32_wrap (i32_wrap (-v) ^ 2) = i32_wrap (i32_wrap v ^ 2) := by
    intro v
    apply i32_wrap_congr
    have h1 : i32_wrap v ≡ v [ZMOD 2 ^ 32] := by unfold Int.ModEq i32_wrap; omega
    have h2 : i32_wrap (-v) ≡ -v [ZMOD 2 ^ 32] := by unfold Int.ModEq i32_wrap; omega
    calc i32_wrap (-v) ^ 2 % 2 ^ 32
        = (-v) ^ 2 % 2 ^ 32 := h2.pow 2
      _ = v ^ 2 % 2 ^ 32 := by ring_nf
      _ = i32_wrap v ^ 2 % 2 ^ 32 := (h1.pow 2).symm
  have hx : b.x - a.x = -(a.x - b.x) := by ring
  have hy : b.y - a.y = -(a.y - b.y) := by ring
  unfold dist_sq_i32
  rw [hx, hy, key, key]

theorem distance_comm (a b : Point) : distance a b = distance b a := by
  unfold distance
  rw [dist_sq_i32_comm]

/-- C1: as written in the source, `direction_of` returns `Horizontal`
for two points with the same x (a vertically aligned pair) and
`Vertical` for two points with the same y (a horizontally aligned
pair) — the opposite of the spec's classification.  Evaluated at the
failing inputs `(0,0),(0,5)` (same x) and `(0,0),(5,0)` (same y). -/
theorem c1_direction_of_labels_swapped :
    direction_of ⟨0, 0⟩ ⟨0, 5⟩ = Direction.Horizontal ∧
    direction_of ⟨0, 0⟩ ⟨5, 0⟩ = Direction.Vertical ∧
    direction_of ⟨0, 0⟩ ⟨5, 5⟩ = Direction.Other := by
  decide

/-- C4: `Rect::contains` is inclusive on all four edges: for a
rectangle of non-negative size it holds exactly when
`origin.x ≤ p.x ≤ origin.x + width` and
`origin.y ≤ p.y ≤ origin.y + height`. -/
theorem c4_contains_inclusive (r : Rect) (p : Point)
    (hw : 0 ≤ r.size.width) (hh : 0 ≤ r.size.height) :
    Rect.contains r p ↔
      (r.origin.x ≤ p.x ∧ p.x ≤ r.origin.x + r.size.width ∧
       r.origin.y ≤ p.y ∧ p.y ≤ r.origin.y + r.size.height) := by
  unfold Rect.contains Rect.left Rect.right Rect.top Rect.bottom
  tauto

theorem c4_contains_inclusive_witness :
    Rect.contains ⟨⟨0, 0⟩, ⟨10, 10⟩⟩ ⟨10, 0⟩ ↔
      ((0 : Int) ≤ 10 ∧ (10 : Int) ≤ 0 + 10 ∧ (0 : Int) ≤ 0 ∧ (0 : Int) ≤ 0 + 10) :=
  c4_contains_inclusive ⟨⟨0, 0⟩, ⟨10, 10⟩⟩ ⟨10, 0⟩ (by decide) (by decide)

/-- C6: margin exclusion is monotone — if the shape inflated by the
smaller margin `m1` intersects a cell, the shape inflated by any
larger margin `m2` also intersects it. -/
theorem c6_margin_monotone (s c : Rect) (m1 m2 : Int)
    (h0 : 0 ≤ m1) (h12 : m1 ≤ m2)
    (h : Rect.intersects (Rect.inflate s m1 m1) c) :
    Rect.intersects (Rect.inflate s m2 m2) c := by
  unfold Rect.intersects Rect.inflate Rect.from_ltrb Rect.left Rect.top
    Rect.right Rect.bottom Rect.width Rect.height make_point make_size at h ⊢
  simp only at h ⊢
  omega

theorem c6_margin_monotone_witness :
    Rect.intersects (Rect.inflate ⟨⟨0, 0⟩, ⟨10, 10⟩⟩ 5 5) ⟨⟨11, 0⟩, ⟨10, 10⟩⟩ :=
  c6_margin_monotone ⟨⟨0, 0⟩, ⟨10, 10⟩⟩ ⟨⟨11, 0⟩, ⟨10, 10⟩⟩ 2 5
    (by decide) (by decide) (by decide)

/-- C8: `Rect::north`, `Rect::south` and `Rect::west` return the
midpoints the claim states, but `Rect::east` uses `left` instead of
`right`: on the 10×10 rectangle at the origin, `east` evaluates to
`(0, 5)` — equal to `west` despite the positive width — and not to the
right-side midpoint `(10, 5)`. -/
theorem c8_east_equals_west :
    Rect.east ⟨⟨0, 0⟩, ⟨10, 10⟩⟩ = make_point 0 5 ∧
    Rect.west ⟨⟨0, 0⟩, ⟨10, 10⟩⟩ = make_point 0 5 ∧
    Rect.east ⟨⟨0, 0⟩, ⟨10, 10⟩⟩ ≠ make_point 10 5 ∧
    Rect.north ⟨⟨0, 0⟩, ⟨10, 10⟩⟩ = make_point 5 0 ∧
    Rect.south ⟨⟨0, 0⟩, ⟨10, 10⟩⟩ = make_point 5 10 := by
  decide

/-- C5: `PointGraph::add` deduplicates by exact coordinate: when the
point is already present it returns the stored index and the whole
graph unchanged, and adding the same point twice is idempotent. -/
theorem c5_add_dedup (g : PointGraph) (p : Point) :
    (∀ n, lookup g.nodes p = some n → PointGraph.add g p = (n, g)) ∧
    PointGraph.add (PointGraph.add g p).2 p = PointGraph.add g p := by
  constructor
  · intro n hn
    unfold PointGraph.add
    rw [hn]
  · rcases hl : lookup g.nodes p with _ | n
    · have h1 : PointGraph.add g p =
          (g.graph.nodes.length,
            ⟨⟨g.graph.nodes ++ [p], g.graph.edges⟩,
             (p, g.graph.nodes.length) :: g.nodes⟩) := by
        unfold PointGraph.add PetGraph.add_node
        rw [hl]
      rw [h1]
      unfold PointGraph.add
      simp [lookup]
    · have h1 : PointGraph.add g p = (n, g) := by
        unfold PointGraph.add
        rw [hl]
      rw [h1]
      unfold PointGraph.add
      rw [hl]

theorem c5_add_dedup_witness :
    PointGraph.add cg0 ⟨0, 0⟩ = (0, cg0) ∧
    PointGraph.add (PointGraph.add cg0 ⟨0, 0⟩).2 ⟨0, 0⟩ = PointGraph.add cg0 ⟨0, 0⟩ :=
  ⟨(c5_add_dedup cg0 ⟨0, 0⟩).1 0 rfl, (c5_add_dedup cg0 ⟨0, 0⟩).2⟩

/-- C3 counterexample: the zero-width rectangle with left = right = 5
spanning y ∈ [0,10] does intersect the 10×10 square at the origin
under `Rect::intersects`, although its interior is empty — refuting
both the "iff interiors overlap" reading and the sentence that a
zero-width rectangle intersects no rectangle. -/
theorem c3_zero_width_counterexample :
    Rect.intersects ⟨⟨5, 0⟩, ⟨0, 10⟩⟩ ⟨⟨0, 0⟩, ⟨10, 10⟩⟩ ∧
    (⟨⟨5, 0⟩, ⟨0, 10⟩⟩ : Rect).size.width = 0 ∧
    ¬ interiorOverlap ⟨⟨5, 0⟩, ⟨0, 10⟩⟩ ⟨⟨0, 0⟩, ⟨10, 10⟩⟩ := by
  refine ⟨by decide, rfl, ?_⟩
  intro h
  rcases h.1 with ⟨x, hx⟩
  have hx1 := hx.1
  rw [Set.mem_Ioo] at hx1
  unfold Rect.left Rect.right at hx1
  norm_num at hx1
  obtain ⟨h1, h2⟩ := hx1
  linarith

/-- C3 amended: `Rect::intersects r s` holds exactly when the four
strict edge inequalities hold; for rectangles of positive width and
height this coincides with open-interval interior overlap on both
axes, and rectangles that touch along an edge never intersect, but a
degenerate (zero-width or zero-height) rectangle lying strictly inside
the other's span still intersects it. -/
theorem c3_intersects_characterization (r s : Rect) :
    (Rect.intersects r s ↔
      (s.left < r.right ∧ r.left < s.right ∧ s.top < r.bottom ∧ r.top < s.bottom)) ∧
    (0 < r.size.width → 0 < r.size.height → 0 < s.size.width → 0 < s.size.height →
      (Rect.intersects r s ↔ interiorOverlap r s)) ∧
    ((r.right = s.left ∨ s.right = r.left ∨ r.bottom = s.top ∨ s.bottom = r.top) →
      ¬ Rect.intersects r s) := by
  refine ⟨?_, ?_, ?_⟩
  · unfold Rect.intersects Rect.left Rect.right Rect.top Rect.bottom Rect.width Rect.height
    omega
  · intro hrw hrh hsw hsh
    unfold interiorOverlap
    rw [Set.Ioo_inter_Ioo, Set.Ioo_inter_Ioo, Set.nonempty_Ioo, Set.nonempty_Ioo]
    simp only [sup_lt_iff, lt_inf_iff, max_lt_iff, lt_min_iff, Int.cast_lt]
    unfold Rect.intersects Rect.left Rect.right Rect.top Rect.bottom Rect.width Rect.height at *
    omega
  · intro hors
    unfold Rect.intersects Rect.left Rect.right Rect.top Rect.bottom Rect.width Rect.height at *
    omega

theorem c3_intersects_characterization_witness :
    Rect.intersects ⟨⟨0, 0⟩, ⟨10, 10⟩⟩ ⟨⟨5, 5⟩, ⟨10, 10⟩⟩ ↔
      interiorOverlap ⟨⟨0, 0⟩, ⟨10, 10⟩⟩ ⟨⟨5, 5⟩, ⟨10, 10⟩⟩ :=
  (c3_intersects_characterization ⟨⟨0, 0⟩, ⟨10, 10⟩⟩ ⟨⟨5, 5⟩, ⟨10, 10⟩⟩).2.1
    (by decide) (by decide) (by decide) (by decide)

/-- C9: `Rect::union` never reaches `min_max`'s panic branch — on any
two rectangles it returns `some` of `from_ltrb` of the coordinate-wise
minima and maxima of the four edge values — and for rectangles of
non-negative size the result encloses both inputs and is enclosed in
every rectangle enclosing both (minimality). -/
theorem c9_union_total_minimal (r s : Rect)
    (hrw : 0 ≤ r.size.width) (hrh : 0 ≤ r.size.height)
    (hsw : 0 ≤ s.size.width) (hsh : 0 ≤ s.size.height) :
    ∃ u, Rect.union r s = some u ∧
      u = Rect.from_ltrb (min r.left (min r.right (min s.left s.right)))
        (min r.top (min r.bottom (min s.top s.bottom)))
        (max r.left (max r.right (max s.left s.right)))
        (max r.top (max r.bottom (max s.top s.bottom))) ∧
      encloses u r ∧ encloses u s ∧
      ∀ t, encloses t r → encloses t s → encloses t u := by
  refine ⟨Rect.from_ltrb (min r.left (min r.right (min s.left s.right)))
      (min r.top (min r.bottom (min s.top s.bottom)))
      (max r.left (max r.right (max s.left s.right)))
      (max r.top (max r.bottom (max s.top s.bottom))), ?_, rfl, ?_, ?_, ?_⟩
  · simp [Rect.union, min_max, list_min, list_max]
  · simp only [encloses, Rect.from_ltrb, Rect.left, Rect.right, Rect.top,
      Rect.bottom, make_point, make_size]
    refine ⟨?_, ?_, ?_, ?_⟩ <;> omega
  · simp only [encloses, Rect.from_ltrb, Rect.left, Rect.right, Rect.top,
      Rect.bottom, make_point, make_size]
    refine ⟨?_, ?_, ?_, ?_⟩ <;> omega
  · intro t htr hts
    simp only [encloses, Rect.from_ltrb, Rect.left, Rect.right, Rect.top,
      Rect.bottom, make_point, make_size] at htr hts ⊢
    refine ⟨?_, ?_, ?_, ?_⟩ <;> omega

theorem c9_union_total_minimal_witness :
    ∃ u, Rect.union ⟨⟨0, 0⟩, ⟨10, 10⟩⟩ ⟨⟨20, 5⟩, ⟨10, 10⟩⟩ = some u ∧
      u = Rect.from_ltrb
        (min (Rect.left ⟨⟨0, 0⟩, ⟨10, 10⟩⟩) (min (Rect.right ⟨⟨0, 0⟩, ⟨10, 10⟩⟩)
          (min (Rect.left ⟨⟨20, 5⟩, ⟨10, 10⟩⟩) (Rect.right ⟨⟨20, 5⟩, ⟨10, 10⟩⟩))))
        (min (Rect.top ⟨⟨0, 0⟩, ⟨10, 10⟩⟩) (min (Rect.bottom ⟨⟨0, 0⟩, ⟨10, 10⟩⟩)
          (min (Rect.top ⟨⟨20, 5⟩, ⟨10, 10⟩⟩) (Rect.bottom ⟨⟨20, 5⟩, ⟨10, 10⟩⟩))))
        (max (Rect.left ⟨⟨0, 0⟩, ⟨10, 10⟩⟩) (max (Rect.right ⟨⟨0, 0⟩, ⟨10, 10⟩⟩)
          (max (Rect.left ⟨⟨20, 5⟩, ⟨10, 10⟩⟩) (Rect.right ⟨⟨20, 5⟩, ⟨10, 10⟩⟩))))
        (max (Rect.top ⟨⟨0, 0⟩, ⟨10, 10⟩⟩) (max (Rect.bottom ⟨⟨0, 0⟩, ⟨10, 10⟩⟩)
          (max (Rect.top ⟨⟨20, 5⟩, ⟨10, 10⟩⟩) (Rect.bottom ⟨⟨20, 5⟩, ⟨10, 10⟩⟩)))) ∧
      encloses u ⟨⟨0, 0⟩, ⟨10, 10⟩⟩ ∧ encloses u ⟨⟨20, 5⟩, ⟨10, 10⟩⟩ ∧
      ∀ t, encloses t ⟨⟨0, 0⟩, ⟨10, 10⟩⟩ → encloses t ⟨⟨20, 5⟩, ⟨10, 10⟩⟩ →
        encloses t u :=
  c9_union_total_minimal ⟨⟨0, 0⟩, ⟨10, 10⟩⟩ ⟨⟨20, 5⟩, ⟨10, 10⟩⟩
    (by decide) (by decide) (by decide) (by decide)

/-- C7: the integer computed inside `distance` wraps mod `2^32`
(`dist_sq_i32`); whenever the exact sum of squared differences fits in
`i32`, it is computed exactly, and `distance` is then the real square
root of that exact sum. -/
theorem c7_distance_exact (a b : Point)
    (h : (a.x - b.x) ^ 2 + (a.y - b.y) ^ 2 < 2 ^ 31) :
    dist_sq_i32 a b = (a.x - b.x) ^ 2 + (a.y - b.y) ^ 2 ∧
    distance a b = Real.sqrt (((a.x - b.x) ^ 2 + (a.y - b.y) ^ 2 : Int) : ℝ) := by
  refine ⟨dist_sq_i32_exact h, ?_⟩
  unfold distance
  rw [dist_sq_i32_exact h]

theorem c7_distance_exact_witness :
    dist_sq_i32 ⟨3, 4⟩ ⟨0, 0⟩ = ((3 : Int) - 0) ^ 2 + ((4 : Int) - 0) ^ 2 ∧
    distance ⟨3, 4⟩ ⟨0, 0⟩ =
      Real.sqrt ((((3 : Int) - 0) ^ 2 + ((4 : Int) - 0) ^ 2 : Int) : ℝ) :=
  c7_distance_exact ⟨3, 4⟩ ⟨0, 0⟩ (by norm_num)

/-- C2 counterexample: on the two-node graph holding `(0,0)` (index 0)
and `(1,0)` (index 1), a single `connect((0,0),(1,0))` leaves exactly
one directed edge `0 → 1` — there is no reciprocal edge `1 → 0`, so
the claim that one `connect` call produces both directions fails. -/
theorem c2_no_reciprocal_counterexample :
    PointGraph.get cg0 ⟨0, 0⟩ = some 0 ∧
    PointGraph.get cg0 ⟨1, 0⟩ = some 1 ∧
    (PointGraph.connect cg0 ⟨0, 0⟩ ⟨1, 0⟩).map
      (fun g => g.graph.edges.map (fun e => (e.1, e.2.1))) = some [(0, 1)] :=
  ⟨rfl, rfl, rfl⟩

/-- C2 amended: on a well-formed graph holding distinct points `p` and
`q`, `connect(p, q)` appends exactly one directed edge from `p`'s node
to `q`'s node with weight `distance p q` — never a self-loop — and the
reciprocal edge of equal weight appears only after the separate call
`connect(q, p)`. -/
theorem c2_connect_adds_directed_edge (g : PointGraph) (p q : Point) (np nq : Nat)
    (hwf : wf_nodes g.nodes) (hp : lookup g.nodes p = some np)
    (hq : lookup g.nodes q = some nq) (hpq : p ≠ q) :
    np ≠ nq ∧
    ∃ g1 g2, PointGraph.connect g p q = some g1 ∧
      g1.graph.edges = g.graph.edges ++ [(np, nq, distance p q)] ∧
      PointGraph.connect g1 q p = some g2 ∧
      g2.graph.edges = g.graph.edges ++ [(np, nq, distance p q), (nq, np, distance p q)] := by
  refine ⟨wf_lookup_inj hpq hwf hp hq,
    { g with graph := g.graph.add_edge np nq (distance p q) },
    { g with graph := (g.graph.add_edge np nq (distance p q)).add_edge nq np (distance q p) },
    ?_, ?_, ?_, ?_⟩
  · unfold PointGraph.connect PointGraph.get
    rw [hp, hq]
  · simp [PetGraph.add_edge]
  · unfold PointGraph.connect PointGraph.get
    simp only [PetGraph.add_edge]
    rw [hq, hp]
  · simp [PetGraph.add_edge, distance_comm q p]

theorem c2_connect_adds_directed_edge_witness :
    (0 : Nat) ≠ 1 ∧
    ∃ g1 g2, PointGraph.connect cg0 ⟨0, 0⟩ ⟨1, 0⟩ = some g1 ∧
      g1.graph.edges = cg0.graph.edges ++ [(0, 1, distance ⟨0, 0⟩ ⟨1, 0⟩)] ∧
      PointGraph.connect g1 ⟨1, 0⟩ ⟨0, 0⟩ = some g2 ∧
      g2.graph.edges = cg0.graph.edges ++
        [(0, 1, distance ⟨0, 0⟩ ⟨1, 0⟩), (1, 0, distance ⟨0, 0⟩ ⟨1, 0⟩)] :=
  c2_connect_adds_directed_edge cg0 ⟨0, 0⟩ ⟨1, 0⟩ 0 1
    (by unfold wf_nodes; decide) rfl rfl (by decide)

/-- C10: `PointGraph::connect` returns normally exactly when both
points were previously added (its two `unwrap`ped lookups succeed);
with any point never added, the panic branch (`none`) is taken. -/
theorem c10_connect_requires_membership (g : PointGraph) (a b : Point) :
    (PointGraph.connect g a b).isSome ↔
      (PointGraph.get g a).isSome ∧ (PointGraph.get g b).isSome := by
  unfold PointGraph.connect
  cases hga : PointGraph.get g a <;> cases hgb : PointGraph.get g b <;> simp

end OrthoRs
